import Mathlib

/-!
Shallow embedding, in Lean 4, of the reliability and human-interaction core of
the repository (retry engine, circuit breaker, fuzzy matcher, typing engine,
motion planner, input-method classifier), together with proofs of the spec
claims about it.

Conventions of the embedding:
* JS numbers are modelled as `ℚ` (exact rationals); where non-finite values
  matter (Infinity / NaN from `Math.log(0)`), an explicit `JsNum` type is used.
* The results of `Math.random()` draws are passed in as explicit parameters, so
  every theorem quantifies over all possible draws.
* Async functions that only wait (delays) are dropped; the values they are
  called with are kept where a claim is about those values.
* Thrown errors are modelled with `Except`.
-/

namespace Tsenta

-- ═════════════════════════════════════════════════════════════
-- Retry engine (src/unnamed/part_005, `retry`)
-- ═════════════════════════════════════════════════════════════

/-- Fail-fast test from `retry`: the JS condition
`opts.retryOn && !opts.retryOn(lastError)` — true when a predicate is
configured and rejects the error. -/
def failFast {E : Type} (retryOn : Option (E → Bool)) (e : E) : Bool :=
  match retryOn with
  | some p => !(p e)
  | none => false

/-- Loop body of `retry` (part_005 lines 82–116), starting at iteration
`attempt` of `for (let attempt = 1; attempt <= maxAttempts; attempt++)`.
`fn k` is the outcome of the k-th invocation of the wrapped operation
(1-based); `lastError` mirrors the JS `lastError` variable; `remaining` is
the number of loop iterations the guard still allows, i.e.
`maxAttempts + 1 - attempt` (zero exactly when `attempt > maxAttempts`, the
loop-exit condition). The result pairs the final outcome with the number of
invocations performed; the error type `Option E` uses `none` for the
synthetic `Retry exhausted with no error` thrown after a loop that never
ran. -/
def retryGo {E V : Type} (fn : Nat → Except E V) (retryOn : Option (E → Bool))
    (maxAttempts : Nat) :
    (attempt : Nat) → (remaining : Nat) → (lastError : Option E) →
    Except (Option E) V × Nat
  | _, 0, lastError => (Except.error lastError, 0)
  | attempt, remaining + 1, _ =>
    match fn attempt with
    | Except.ok v => (Except.ok v, 1)
    | Except.error e =>
      if failFast retryOn e then
        (Except.error (some e), 1)
      else if attempt = maxAttempts then
        (Except.error (some e), 1)
      else
        let r := retryGo fn retryOn maxAttempts (attempt + 1) remaining (some e)
        (r.1, r.2 + 1)

/-- `retry(fn, options)` with `maxAttempts` and optional `retryOn` taken from
the (merged) options; delays, jitter and the `onRetry` callback do not affect
the returned value or the invocation count. The loop enters at `attempt = 1`
with `maxAttempts` allowed iterations. -/
def retry {E V : Type} (fn : Nat → Except E V) (retryOn : Option (E → Bool))
    (maxAttempts : Nat) : Except (Option E) V × Nat :=
  retryGo fn retryOn maxAttempts 1 maxAttempts none

-- ═════════════════════════════════════════════════════════════
-- Backoff delay with jitter (src/unnamed/part_005, lines 98–108)
-- ═════════════════════════════════════════════════════════════

/-- Exponential backoff before jitter:
`Math.min(baseDelay * Math.pow(multiplier, attempt - 1), maxDelay)`. -/
def backoffBase (baseDelay maxDelay multiplier : ℚ) (attempt : Nat) : ℚ :=
  min (baseDelay * multiplier ^ (attempt - 1)) maxDelay

/-- Jitter step: `jitterRange = delayMs * 0.25;`
`delayMs = delayMs - jitterRange + r * (jitterRange * 2)` where `r` is the
`Math.random()` draw. -/
def jitteredDelay (d r : ℚ) : ℚ :=
  d - d * (1/4) + r * (d * (1/4) * 2)

-- ═════════════════════════════════════════════════════════════
-- Circuit breaker (src/unnamed/part_005, `CircuitBreaker`)
-- ═════════════════════════════════════════════════════════════

/-- The three circuit states `'closed' | 'open' | 'half-open'`. -/
inductive CircState where
  | closed
  | opened
  | halfOpen
deriving DecidableEq

/-- Configuration record `CircuitBreakerOptions`; time is modelled as `ℤ`
(milliseconds, the unit of `Date.now()`). -/
structure CBOptions where
  failureThreshold : Nat
  recoveryTimeout : Int
  halfOpenRequests : Nat
deriving DecidableEq

/-- Mutable fields of a `CircuitBreaker` instance. -/
structure CB where
  state : CircState
  failures : Nat
  successes : Nat
  lastFailureTime : Int
deriving DecidableEq

/-- Field initialisers of the class: closed, all counters zero. -/
def CB.initial : CB := ⟨CircState.closed, 0, 0, 0⟩

/-- `onSuccess` (part_005 lines 172–181): reset `failures`; in half-open,
increment `successes` and close once it reaches `halfOpenRequests`. -/
def onSuccess (o : CBOptions) (cb : CB) : CB :=
  let cb1 : CB := { cb with failures := 0 }
  if cb1.state = CircState.halfOpen then
    let cb2 : CB := { cb1 with successes := cb1.successes + 1 }
    if o.halfOpenRequests ≤ cb2.successes then
      { cb2 with state := CircState.closed }
    else cb2
  else cb1

/-- `onFailure` (part_005 lines 183–192): count the failure, stamp the time,
re-open from half-open, open from closed once the threshold is reached. -/
def onFailure (o : CBOptions) (cb : CB) (now : Int) : CB :=
  let cb1 : CB := { cb with failures := cb.failures + 1, lastFailureTime := now }
  if cb1.state = CircState.halfOpen then
    { cb1 with state := CircState.opened }
  else if o.failureThreshold ≤ cb1.failures then
    { cb1 with state := CircState.opened }
  else cb1

/-- Observable outcome of one `execute` call: the wrapped value, the wrapped
error, or a `CircuitOpenError` carrying the remaining cooldown. -/
inductive ExecResult (E V : Type) where
  | ok (v : V)
  | err (e : E)
  | circuitOpen (remaining : Int)
deriving DecidableEq

/-- Shared tail of `execute`: run the wrapped function (whose outcome for this
call is `outcome`), then `onSuccess` / `onFailure`. The `Bool` records that
the wrapped function was invoked. -/
def runCall {E V : Type} (o : CBOptions) (cb : CB) (now : Int)
    (outcome : Except E V) : ExecResult E V × CB × Bool :=
  match outcome with
  | Except.ok v => (ExecResult.ok v, onSuccess o cb, true)
  | Except.error e => (ExecResult.err e, onFailure o cb now, true)

/-- `execute` (part_005 lines 148–170). `now` is the value of `Date.now()`
during this call; `outcome` is what the wrapped function would do if invoked.
Returns (result, new breaker state, whether the wrapped function ran). -/
def execute {E V : Type} (o : CBOptions) (cb : CB) (now : Int)
    (outcome : Except E V) : ExecResult E V × CB × Bool :=
  if cb.state = CircState.opened then
    let timeSinceFailure := now - cb.lastFailureTime
    if o.recoveryTimeout ≤ timeSinceFailure then
      runCall o { cb with state := CircState.halfOpen, successes := 0 } now outcome
    else
      (ExecResult.circuitOpen (o.recoveryTimeout - timeSinceFailure), cb, false)
  else
    runCall o cb now outcome

-- ═════════════════════════════════════════════════════════════
-- Fuzzy matcher (src/unnamed/part_002, `fuzzyScore`)
-- ═════════════════════════════════════════════════════════════

/-- Whitespace test matching the character classes relevant to `/\s+/`. -/
def isWsChar (c : Char) : Bool :=
  c == ' ' || c == '\t' || c == '\n' || c == '\r'

/-- JS `needle.split(/\s+/)`: splits on maximal whitespace runs, producing an
empty token at an end of the string that touches whitespace (and `[""]` for
the empty string). A whitespace character followed by another whitespace
character belongs to the same separator run, so contributes no extra token. -/
def splitWs : List Char → List (List Char)
  | [] => [[]]
  | [c] => if isWsChar c then [[], []] else [[c]]
  | c :: d :: rest =>
    match splitWs (d :: rest) with
    | [] => [[]]
    | w :: ws =>
      if isWsChar c then
        if isWsChar d then w :: ws
        else [] :: w :: ws
      else (c :: w) :: ws

/-- JS `haystack.includes(pat)` for strings: `pat` occurs as a contiguous
subsequence of `l`. -/
def containsSeq (pat : List Char) : List Char → Bool
  | [] => pat.isEmpty
  | c :: rest => pat.isPrefixOf (c :: rest) || containsSeq pat rest

/-- `fuzzyScore` (part_002 lines 236–254). Strings are lists of characters;
`haystack.startsWith(needle)` is `needle.isPrefixOf haystack`,
`haystack.includes(s)` is `containsSeq s haystack`. The partial-match score is
exact rational arithmetic. -/
def fuzzyScore (needle haystack : List Char) : ℚ :=
  if haystack = needle then 100
  else if needle.isPrefixOf haystack then 80
  else if (splitWs needle).all (fun w => containsSeq w haystack) then 60
  else if containsSeq needle haystack then 40
  else ((needle.filter (fun c => haystack.contains c)).length : ℚ)
        / (needle.length : ℚ) * 20

-- ═════════════════════════════════════════════════════════════
-- Gaussian sampling (src/src/engine/human.ts, `gaussianRandom`, `delay`,
-- and the per-character delay inside `humanType`)
-- ═════════════════════════════════════════════════════════════

/-- JS double with its non-finite values: `num q` is a finite number, plus
`Infinity`, `-Infinity`, `NaN`. Finite arithmetic is exact (overflow of huge
finite products to Infinity is not modelled; no claim depends on it). -/
inductive JsNum where
  | num (q : ℚ)
  | posInf
  | negInf
  | nan
deriving DecidableEq

/-- `Number.isFinite`. -/
def JsNum.isFinite : JsNum → Bool
  | JsNum.num _ => true
  | _ => false

/-- IEEE-754 multiplication on the sign/finiteness level. -/
def jsMul : JsNum → JsNum → JsNum
  | JsNum.nan, _ => JsNum.nan
  | _, JsNum.nan => JsNum.nan
  | JsNum.posInf, JsNum.posInf => JsNum.posInf
  | JsNum.posInf, JsNum.negInf => JsNum.negInf
  | JsNum.negInf, JsNum.posInf => JsNum.negInf
  | JsNum.negInf, JsNum.negInf => JsNum.posInf
  | JsNum.posInf, JsNum.num q =>
    if 0 < q then JsNum.posInf else if q < 0 then JsNum.negInf else JsNum.nan
  | JsNum.num q, JsNum.posInf =>
    if 0 < q then JsNum.posInf else if q < 0 then JsNum.negInf else JsNum.nan
  | JsNum.negInf, JsNum.num q =>
    if 0 < q then JsNum.negInf else if q < 0 then JsNum.posInf else JsNum.nan
  | JsNum.num q, JsNum.negInf =>
    if 0 < q then JsNum.negInf else if q < 0 then JsNum.posInf else JsNum.nan
  | JsNum.num a, JsNum.num b => JsNum.num (a * b)

/-- IEEE-754 addition on the sign/finiteness level. -/
def jsAdd : JsNum → JsNum → JsNum
  | JsNum.nan, _ => JsNum.nan
  | _, JsNum.nan => JsNum.nan
  | JsNum.posInf, JsNum.negInf => JsNum.nan
  | JsNum.negInf, JsNum.posInf => JsNum.nan
  | JsNum.posInf, _ => JsNum.posInf
  | _, JsNum.posInf => JsNum.posInf
  | JsNum.negInf, _ => JsNum.negInf
  | _, JsNum.negInf => JsNum.negInf
  | JsNum.num a, JsNum.num b => JsNum.num (a + b)

/-- `gaussianRandom(mean, stdDev)` (human.ts lines 69–74), with the
transcendental library functions abstracted: `logF`, `sqrtF`, `cosF` stand for
`Math.log`, `Math.sqrt`, `Math.cos`; `piV` for `Math.PI`; `u1`, `u2` for the
two `Math.random()` draws. The body applies `logF` to `u1` unconditionally —
there is no guard on `u1` in the source. -/
def gaussianRandom (logF sqrtF cosF : JsNum → JsNum) (piV : JsNum)
    (mean stdDev u1 u2 : JsNum) : JsNum :=
  let z := jsMul (sqrtF (jsMul (JsNum.num (-2)) (logF u1)))
                 (cosF (jsMul (jsMul (JsNum.num 2) piV) u2))
  jsAdd mean (jsMul z stdDev)

/-- Finite-arithmetic core of `gaussianRandom`: `mean + z * stdDev` for a
Box–Muller value `z`. -/
def gaussianOf (mean stdDev z : ℚ) : ℚ := mean + z * stdDev

/-- Per-character delay in `humanType` (human.ts lines 261–265):
`Math.max(minDelay, gaussianRandom((minDelay+maxDelay)/2, (maxDelay-minDelay)/4))`
where `z` is the Box–Muller value of that draw. -/
def charDelay (minDelay maxDelay z : ℚ) : ℚ :=
  max minDelay
    (gaussianOf ((minDelay + maxDelay) / 2) ((maxDelay - minDelay) / 4) z)

/-- Sleep-time computation of `delay(min, max)` (human.ts lines 79–84):
`Math.max(min, Math.min(max, gaussianRandom(mean, stdDev)))`. Kept for
contrast with `charDelay`, which has no upper clamp. -/
def delayMs (lo hi z : ℚ) : ℚ :=
  max lo (min hi (gaussianOf ((lo + hi) / 2) ((hi - lo) / 4) z))

-- ═════════════════════════════════════════════════════════════
-- Motion planner (src/src/engine/human.ts, `generateBezierPoints`,
-- `bezierPoint`, `humanMouseMove`)
-- ═════════════════════════════════════════════════════════════

/-- A 2-D point with exact rational coordinates. -/
structure Pt where
  x : ℚ
  y : ℚ
deriving DecidableEq

/-- `generateBezierPoints(start, end)` (human.ts lines 102–122). The runtime
values that are irrational in general are passed in: `cd` is
`sqrt((end.x-start.x)^2 + (end.y-start.y)^2) * 0.3` and `(cos1, sin1)`,
`(cos2, sin2)` are the cosine/sine of the two random angles. The result is
the 4-tuple `[start, control1, control2, end]`. -/
def generateBezierPoints (start stop : Pt) (cd cos1 sin1 cos2 sin2 : ℚ) :
    Pt × Pt × Pt × Pt :=
  (start,
   ⟨start.x + cd * cos1 * (1/2), start.y + cd * sin1 * (1/2)⟩,
   ⟨stop.x + cd * cos2 * (3/10), stop.y + cd * sin2 * (3/10)⟩,
   stop)

/-- `bezierPoint(t, points)` (human.ts lines 127–134): cubic Bézier through
the destructured `[p0, p1, p2, p3]`. -/
def bezierPoint (t : ℚ) (ps : Pt × Pt × Pt × Pt) : Pt :=
  let u := 1 - t
  ⟨u*u*u*ps.1.x + 3*u*u*t*ps.2.1.x + 3*u*t*t*ps.2.2.1.x + t*t*t*ps.2.2.2.x,
   u*u*u*ps.1.y + 3*u*u*t*ps.2.1.y + 3*u*t*t*ps.2.2.1.y + t*t*t*ps.2.2.2.y⟩

/-- Ease-out remap used in `humanMouseMove`: `1 - Math.pow(1 - t, 3)`. -/
def easeOut (t : ℚ) : ℚ := 1 - (1 - t)^3

/-- The sequence of points `humanMouseMove` (human.ts lines 139–157) moves
through: for `i = 0 .. steps`, `bezierPoint(easeOut(i / steps), points)`. -/
def motionPath (start stop : Pt) (steps : Nat) (cd cos1 sin1 cos2 sin2 : ℚ) :
    List Pt :=
  (List.range (steps + 1)).map fun i : Nat =>
    bezierPoint (easeOut ((i : ℚ) / (steps : ℚ)))
      (generateBezierPoints start stop cd cos1 sin1 cos2 sin2)

-- ═════════════════════════════════════════════════════════════
-- Typing engine (src/src/engine/human.ts, `humanType`)
-- ═════════════════════════════════════════════════════════════

/-- One keystroke emitted by `humanType`: a pressed character, a pressed
substitute character (a typo, emitted through the same `locator.press` but
tagged here with its provenance in the code), or Backspace. -/
inductive Key where
  | press (c : Char)
  | typoPress (c : Char)
  | backspace
deriving DecidableEq

/-- JS `content.split(' ')`: split on every single space character. -/
def splitSpace : List Char → List (List Char)
  | [] => [[]]
  | c :: rest =>
    if c = ' ' then
      [] :: splitSpace rest
    else
      match splitSpace rest with
      | [] => [[c]]
      | w :: ws => (c :: w) :: ws

/-- Rebuild a string from `split(' ')` output: JS `words.join(' ')`. -/
def joinSpace : List (List Char) → List Char
  | [] => []
  | [w] => w
  | w :: ws => w ++ ' ' :: joinSpace ws

/-- Inner character loop of `humanType` (human.ts lines 245–266) over one
word. `typoDraw pos` tells whether the `Math.random() < mistakeRate` draw for
the character at global index `pos` fired, and `typoChar pos` is the key
`getTypo` selects there. A typo keystroke plus Backspace is emitted before the
correct character only when the draw fires and the character is not the last
of the word (`i < word.length - 1`, i.e. the remaining suffix is nonempty). -/
def typeChars (typoDraw : Nat → Bool) (typoChar : Nat → Char) :
    List Char → Nat → List Key
  | [], _ => []
  | c :: rest, pos =>
    (if typoDraw pos && !rest.isEmpty then
       [Key.typoPress (typoChar pos), Key.backspace]
     else []) ++ Key.press c :: typeChars typoDraw typoChar rest (pos + 1)

/-- Word loop of `humanType` (human.ts lines 242–279): type each word, and
press a space between consecutive words (`if (w < words.length - 1)`). -/
def typeWords (typoDraw : Nat → Bool) (typoChar : Nat → Char) :
    List (List Char) → Nat → List Key
  | [], _ => []
  | [w], pos => typeChars typoDraw typoChar w pos
  | w :: ws, pos =>
    typeChars typoDraw typoChar w pos ++
      Key.press ' ' :: typeWords typoDraw typoChar ws (pos + w.length)

/-- Full keystroke sequence of `humanType(target, text)`: split the text on
spaces and run the word loop. -/
def humanTypeKeys (typoDraw : Nat → Bool) (typoChar : Nat → Char)
    (text : List Char) : List Key :=
  typeWords typoDraw typoChar (splitSpace text) 0

/-- Editor semantics of the emitted keystrokes: a pressed character (typo or
not) appends to the field, Backspace deletes the last character. -/
def applyKeys : List Key → List Char → List Char
  | [], acc => acc
  | Key.press c :: ks, acc => applyKeys ks (acc ++ [c])
  | Key.typoPress c :: ks, acc => applyKeys ks (acc ++ [c])
  | Key.backspace :: ks, acc => applyKeys ks acc.dropLast

/-- Structural well-formedness of a keystroke sequence: every typo keystroke
is immediately followed by a Backspace, and every Backspace immediately
follows a typo keystroke. -/
def typoOk : List Key → Bool
  | [] => true
  | Key.typoPress _ :: Key.backspace :: ks => typoOk ks
  | Key.typoPress _ :: _ => false
  | Key.backspace :: _ => false
  | Key.press _ :: ks => typoOk ks

-- ═════════════════════════════════════════════════════════════
-- Input-method classifier (src/src/engine/human.ts, `PASTE_PATTERNS`,
-- `getInputBehavior`, `shouldPaste`)
-- ═════════════════════════════════════════════════════════════

/-- Case folding for the `/i` regex flag. -/
def lowerList (cs : List Char) : List Char := cs.map Char.toLower

/-- Regex `/^https?:\/\//i`. -/
def startsHttp (cs : List Char) : Bool :=
  ("http://".toList).isPrefixOf (lowerList cs) ||
  ("https://".toList).isPrefixOf (lowerList cs)

/-- Regex `/^www\./i`. -/
def startsWww (cs : List Char) : Bool :=
  ("www.".toList).isPrefixOf (lowerList cs)

/-- Regex `/linkedin\.com/i`. -/
def containsLinkedin (cs : List Char) : Bool :=
  containsSeq ("linkedin.com".toList) (lowerList cs)

/-- Regex `/github\.com/i`. -/
def containsGithub (cs : List Char) : Bool :=
  containsSeq ("github.com".toList) (lowerList cs)

/-- Helper for the email regex: some later `'.'` has at least two characters
after it. -/
def hasDotTail : List Char → Bool
  | [] => false
  | c :: rest => (c == '.' && decide (2 ≤ rest.length)) || hasDotTail rest

/-- Regex `/@.*\..{2,}/` (unanchored, case-sensitive): an `'@'` somewhere,
then later a `'.'` with at least two characters after it. -/
def emailish : List Char → Bool
  | [] => false
  | c :: rest => (c == '@' && hasDotTail rest) || emailish rest

/-- `PASTE_PATTERNS.some(pattern => pattern.test(text))`. -/
def matchesPastePattern (cs : List Char) : Bool :=
  startsHttp cs || startsWww cs || containsLinkedin cs ||
  containsGithub cs || emailish cs

/-- The four `InputBehavior` outcomes. -/
inductive InputBehavior where
  | type
  | paste
  | pasteThenEdit
  | typeSomePasteRest
deriving DecidableEq

/-- `getInputBehavior(text)` (human.ts lines 337–359). `rand` is the
`Math.random()` draw consumed by whichever probabilistic branch runs (at most
one of the two `Math.random()` calls is reached per invocation). -/
def getInputBehavior (cs : List Char) (rand : ℚ) : InputBehavior :=
  if matchesPastePattern cs then InputBehavior.paste
  else if cs.length < 50 then InputBehavior.type
  else if cs.length ≤ 200 then
    (if rand < mkRat 7 10 then InputBehavior.type else InputBehavior.paste)
  else if rand < mkRat 1 4 then InputBehavior.type
  else if rand < mkRat 11 20 then InputBehavior.paste
  else if rand < mkRat 4 5 then InputBehavior.pasteThenEdit
  else InputBehavior.typeSomePasteRest

/-- Deprecated `shouldPaste(text)` (human.ts lines 366–369):
`getInputBehavior(text) !== 'type'`. -/
def shouldPaste (cs : List Char) (rand : ℚ) : Bool :=
  getInputBehavior cs rand != InputBehavior.type

-- ═════════════════════════════════════════════════════════════
-- Concrete instances used by witnesses
-- ═════════════════════════════════════════════════════════════

/-- Witness operation for the retry theorem: fails on the first two
invocations, succeeds on the third (the spec's "fails twice then succeeds"). -/
def fnW : Nat → Except Nat Nat :=
  fun i => if i ≤ 2 then Except.error i else Except.ok 42

/-- Sample interpretation of `Math.log` for the gaussian witness. Only its
value at `0` (namely `-Infinity`) and at infinities/NaN matter to the theorem;
finite positive inputs get a placeholder finite value. -/
def logModel : JsNum → JsNum
  | JsNum.num q =>
    if q < 0 then JsNum.nan else if q = 0 then JsNum.negInf else JsNum.num 0
  | JsNum.posInf => JsNum.posInf
  | JsNum.negInf => JsNum.nan
  | JsNum.nan => JsNum.nan

/-- Sample interpretation of `Math.sqrt` for the gaussian witness: only
`sqrt(Infinity) = Infinity` matters; finite nonnegative inputs get a
placeholder finite value. -/
def sqrtModel : JsNum → JsNum
  | JsNum.num q => if q < 0 then JsNum.nan else JsNum.num 0
  | JsNum.posInf => JsNum.posInf
  | JsNum.negInf => JsNum.nan
  | JsNum.nan => JsNum.nan

/-- Sample interpretation of `Math.cos` for the gaussian witness: finite
inputs get a finite value in `[-1, 1]`; infinities and NaN give NaN. -/
def cosModel : JsNum → JsNum
  | JsNum.num _ => JsNum.num 1
  | _ => JsNum.nan

-- ═════════════════════════════════════════════════════════════
-- Theorems: retry engine
-- ═════════════════════════════════════════════════════════════

/-- The loop performs at most `remaining` invocations. -/
theorem retryGo_count {E V : Type} (fn : Nat → Except E V)
    (p : Option (E → Bool)) (maxA : Nat) :
    ∀ (m a : Nat) (last : Option E), (retryGo fn p maxA a m last).2 ≤ m := by
  intro m
  induction m with
  | zero => intro a last; simp [retryGo]
  | succ m ih =>
    intro a last
    rcases hfa : fn a with e | v
    · by_cases hff : failFast p e = true
      · simp [retryGo, hfa, hff]
      · by_cases hlast : a = maxA
        · subst hlast
          simp [retryGo, hfa, hff]
        · have := ih (a + 1) (some e)
          simp only [retryGo, hfa]
          rw [if_neg hff, if_neg hlast]
          omega
    · simp [retryGo, hfa]

/-- Characterisation of a run of the loop that first leaves the
"retryable-error" regime at invocation `a + g`: every earlier invocation
fails with an error the fail-fast test lets through, and at `a + g` the loop
stops — by success, by the fail-fast override, or by exhausting the attempt
budget. The invocation count is `g + 1` in each case. -/
theorem retryGo_run {E V : Type} (fn : Nat → Except E V)
    (p : Option (E → Bool)) (maxA : Nat) :
    ∀ (g a : Nat) (last : Option E), 1 ≤ a → a + g ≤ maxA →
    (∀ i, a ≤ i → i < a + g → ∃ e, fn i = Except.error e ∧ failFast p e = false) →
    ((∀ v, fn (a + g) = Except.ok v →
       retryGo fn p maxA a (maxA + 1 - a) last = (Except.ok v, g + 1))
     ∧ (∀ e, fn (a + g) = Except.error e → failFast p e = true →
       retryGo fn p maxA a (maxA + 1 - a) last = (Except.error (some e), g + 1))
     ∧ (∀ e, fn (a + g) = Except.error e → failFast p e = false → a + g = maxA →
       retryGo fn p maxA a (maxA + 1 - a) last = (Except.error (some e), g + 1))) := by
  intro g
  induction g with
  | zero =>
    intro a last ha hle _
    obtain ⟨m, hm⟩ : ∃ m, maxA + 1 - a = m + 1 := ⟨maxA - a, by omega⟩
    rw [hm]
    refine ⟨?_, ?_, ?_⟩
    · intro v hv
      simp only [Nat.add_zero] at hv
      simp [retryGo, hv]
    · intro e he hf
      simp only [Nat.add_zero] at he
      simp [retryGo, he, hf]
    · intro e he hf hk
      simp only [Nat.add_zero] at he hk
      subst hk
      simp [retryGo, he, hf]
  | succ g ih =>
    intro a last ha hle hpre
    obtain ⟨e₀, he₀, hf₀⟩ := hpre a (Nat.le_refl a) (by omega)
    have hne : a ≠ maxA := by omega
    obtain ⟨m, hm⟩ : ∃ m, maxA + 1 - a = m + 1 := ⟨maxA - a, by omega⟩
    have hm' : m = maxA + 1 - (a + 1) := by omega
    have step : retryGo fn p maxA a (maxA + 1 - a) last =
        ((retryGo fn p maxA (a + 1) (maxA + 1 - (a + 1)) (some e₀)).1,
         (retryGo fn p maxA (a + 1) (maxA + 1 - (a + 1)) (some e₀)).2 + 1) := by
      rw [hm]
      simp [retryGo, he₀, hf₀, hne, ← hm']
    have hpre' : ∀ i, a + 1 ≤ i → i < (a + 1) + g →
        ∃ e, fn i = Except.error e ∧ failFast p e = false := by
      intro i hi1 hi2
      exact hpre i (by omega) (by omega)
    have ihr := ih (a + 1) (some e₀) (by omega) (by omega) hpre'
    have harith : (a + 1) + g = a + (g + 1) := by omega
    refine ⟨?_, ?_, ?_⟩
    · intro v hv
      rw [step, ihr.1 v (by rw [harith]; exact hv)]
    · intro e he hf
      rw [step, ihr.2.1 e (by rw [harith]; exact he) hf]
    · intro e he hf hk
      rw [step, ihr.2.2 e (by rw [harith]; exact he) hf (by omega)]

/-- Claim C1: with a configured predicate `p`, `retry` invokes the operation
at most `maxAttempts` times; if, after a (possibly empty) run of failures
that `p` accepts, an invocation succeeds, its value is returned with exactly
that many invocations; if an invocation fails and `p` returns `false` for the
error, that error is rethrown immediately with no further invocations (in
particular exactly one invocation when the first attempt fails under an
always-false predicate); and if all `maxAttempts` invocations fail with
errors `p` accepts, the error of the last attempt is rethrown after exactly
`maxAttempts` invocations. -/
theorem retry_spec {E V : Type} (fn : Nat → Except E V) (p : E → Bool)
    (maxA : Nat) (hmax : 1 ≤ maxA) :
    (retry fn (some p) maxA).2 ≤ maxA
    ∧ (∀ k v, 1 ≤ k → k ≤ maxA →
        (∀ i, 1 ≤ i → i < k → ∃ e, fn i = Except.error e ∧ p e = true) →
        fn k = Except.ok v →
        retry fn (some p) maxA = (Except.ok v, k))
    ∧ (∀ k e, 1 ≤ k → k ≤ maxA →
        (∀ i, 1 ≤ i → i < k → ∃ e', fn i = Except.error e' ∧ p e' = true) →
        fn k = Except.error e → p e = false →
        retry fn (some p) maxA = (Except.error (some e), k))
    ∧ (∀ e, (∀ i, 1 ≤ i → i < maxA → ∃ e', fn i = Except.error e' ∧ p e' = true) →
        fn maxA = Except.error e → p e = true →
        retry fn (some p) maxA = (Except.error (some e), maxA)) := by
  have hconv : ∀ e : E, p e = true → failFast (some p) e = false := by
    intro e he; simp [failFast, he]
  have hconv' : ∀ e : E, p e = false → failFast (some p) e = true := by
    intro e he; simp [failFast, he]
  have hm1 : maxA + 1 - 1 = maxA := by omega
  refine ⟨?_, ?_, ?_, ?_⟩
  · exact retryGo_count fn (some p) maxA maxA 1 none
  · intro k v hk1 hk2 hpre hv
    have hrun := retryGo_run fn (some p) maxA (k - 1) 1 none (Nat.le_refl 1)
      (by omega)
      (by
        intro i hi1 hi2
        obtain ⟨e, he, hpe⟩ := hpre i hi1 (by omega)
        exact ⟨e, he, hconv e hpe⟩)
    have hk : 1 + (k - 1) = k := by omega
    simp only [hm1] at hrun
    rw [retry, hrun.1 v (by rw [hk]; exact hv)]
    congr 1
    omega
  · intro k e hk1 hk2 hpre he hpe
    have hrun := retryGo_run fn (some p) maxA (k - 1) 1 none (Nat.le_refl 1)
      (by omega)
      (by
        intro i hi1 hi2
        obtain ⟨e', he', hpe'⟩ := hpre i hi1 (by omega)
        exact ⟨e', he', hconv e' hpe'⟩)
    have hk : 1 + (k - 1) = k := by omega
    simp only [hm1] at hrun
    rw [retry, hrun.2.1 e (by rw [hk]; exact he) (hconv' e hpe)]
    congr 1
    omega
  · intro e hpre he hpe
    have hrun := retryGo_run fn (some p) maxA (maxA - 1) 1 none (Nat.le_refl 1)
      (by omega)
      (by
        intro i hi1 hi2
        obtain ⟨e', he', hpe'⟩ := hpre i hi1 (by omega)
        exact ⟨e', he', hconv e' hpe'⟩)
    have hk : 1 + (maxA - 1) = maxA := by omega
    simp only [hm1] at hrun
    rw [retry, hrun.2.2 e (by rw [hk]; exact he) (hconv e hpe) (by omega)]
    congr 1
    omega

/-- Witness for C1 at the spec's own example: an operation that fails twice
then succeeds, under `maxAttempts = 3` and an always-true predicate, returns
the success value after exactly 3 invocations. -/
theorem retry_spec_witness :
    retry fnW (some fun _ => true) 3 = (Except.ok 42, 3) := by
  have h := (retry_spec fnW (fun _ => true) 3 (by decide)).2.1 3 42
    (by decide) (by decide)
    (by
      intro i hi1 hi2
      refine ⟨i, ?_, rfl⟩
      have : i ≤ 2 := by omega
      simp [fnW, this])
    rfl
  exact h

-- ═════════════════════════════════════════════════════════════
-- Theorems: backoff jitter
-- ═════════════════════════════════════════════════════════════

/-- Claim C10: with jitter enabled, for every failed attempt the perturbed
wait lies in `[0.75·d, 1.25·d]` where `d = min(baseDelay · multiplier^(a-1),
maxDelay)`; and because the perturbation is applied after the `maxDelay` cap,
the wait can exceed `maxDelay` (e.g. for any draw `r ≥ 0.9` once the uncapped
delay has reached the cap). -/
theorem backoffJitter_spec (b m mult r : ℚ) (a : Nat)
    (hb : 0 ≤ b) (hm : 0 ≤ m) (hmult : 0 ≤ mult) (hr0 : 0 ≤ r) (hr1 : r < 1) :
    (3/4) * backoffBase b m mult a ≤ jitteredDelay (backoffBase b m mult a) r
    ∧ jitteredDelay (backoffBase b m mult a) r ≤ (5/4) * backoffBase b m mult a
    ∧ (0 < m → m ≤ b * mult ^ (a - 1) → 9/10 ≤ r →
        m < jitteredDelay (backoffBase b m mult a) r) := by
  have hd : 0 ≤ backoffBase b m mult a :=
    le_min (mul_nonneg hb (pow_nonneg hmult _)) hm
  refine ⟨?_, ?_, ?_⟩
  · unfold jitteredDelay
    nlinarith [mul_nonneg hr0 hd]
  · unfold jitteredDelay
    nlinarith [mul_nonneg (sub_nonneg.mpr hr1.le) hd]
  · intro hm0 hcap hr9
    have hbase : backoffBase b m mult a = m := min_eq_right hcap
    rw [hbase]
    unfold jitteredDelay
    nlinarith [mul_le_mul_of_nonneg_right hr9 hm]

/-- Witness for C10: standard-like parameters at the cap with draw `0.9`
produce a wait strictly above `maxDelay`. -/
theorem backoffJitter_spec_witness :
    ((9:ℚ)/10 < 1)
    ∧ (100:ℚ) < jitteredDelay (backoffBase 100 100 2 1) (9/10) :=
  ⟨by norm_num,
   (backoffJitter_spec 100 100 2 (9/10) 1 (by norm_num) (by norm_num)
     (by norm_num) (by norm_num) (by norm_num)).2.2
     (by norm_num) (by norm_num) (by norm_num)⟩

-- ═════════════════════════════════════════════════════════════
-- Theorems: circuit breaker
-- ═════════════════════════════════════════════════════════════

/-- Claim C2: with `failureThreshold 3` and `halfOpenRequests 1`, three
consecutive failed executions (at times `t1 ≤ t2 ≤ t3`) drive the breaker
from its initial Closed state to Open; a further call before the recovery
timeout has elapsed returns `CircuitOpenError` without invoking the wrapped
function and leaves the state unchanged; once the timeout has elapsed the
next call invokes the wrapped function as a half-open probe, a successful
probe closing the breaker and a failed probe re-opening it. -/
theorem circuitBreaker_scenario (T t1 t2 t3 t4 t5 : Int)
    (h4 : t4 - t3 < T) (h5 : T ≤ t5 - t3) :
    execute ⟨3, T, 1⟩ CB.initial t1 (Except.error () : Except Unit Unit) =
      (ExecResult.err (), ⟨CircState.closed, 1, 0, t1⟩, true)
    ∧ execute ⟨3, T, 1⟩ ⟨CircState.closed, 1, 0, t1⟩ t2
        (Except.error () : Except Unit Unit) =
      (ExecResult.err (), ⟨CircState.closed, 2, 0, t2⟩, true)
    ∧ execute ⟨3, T, 1⟩ ⟨CircState.closed, 2, 0, t2⟩ t3
        (Except.error () : Except Unit Unit) =
      (ExecResult.err (), ⟨CircState.opened, 3, 0, t3⟩, true)
    ∧ execute ⟨3, T, 1⟩ ⟨CircState.opened, 3, 0, t3⟩ t4
        (Except.error () : Except Unit Unit) =
      (ExecResult.circuitOpen (T - (t4 - t3)), ⟨CircState.opened, 3, 0, t3⟩, false)
    ∧ execute ⟨3, T, 1⟩ ⟨CircState.opened, 3, 0, t3⟩ t5
        (Except.ok () : Except Unit Unit) =
      (ExecResult.ok (), ⟨CircState.closed, 0, 1, t3⟩, true)
    ∧ execute ⟨3, T, 1⟩ ⟨CircState.opened, 3, 0, t3⟩ t5
        (Except.error () : Except Unit Unit) =
      (ExecResult.err (), ⟨CircState.opened, 4, 0, t5⟩, true) := by
  have h4' : ¬ (T ≤ t4 - t3) := not_le.mpr h4
  refine ⟨rfl, rfl, rfl, ?_, ?_, ?_⟩
  · simp [execute, h4']
  · simp [execute, runCall, onSuccess, h5]
  · simp [execute, runCall, onFailure, h5]

/-- Witness for C2 at concrete times: timeout 10, failures at 0, 1, 2, a
rejected call at 5 and a probe at 20. -/
theorem circuitBreaker_scenario_witness :
    execute ⟨3, 10, 1⟩ CB.initial 0 (Except.error () : Except Unit Unit) =
      (ExecResult.err (), ⟨CircState.closed, 1, 0, 0⟩, true)
    ∧ execute ⟨3, 10, 1⟩ ⟨CircState.closed, 1, 0, 0⟩ 1
        (Except.error () : Except Unit Unit) =
      (ExecResult.err (), ⟨CircState.closed, 2, 0, 1⟩, true)
    ∧ execute ⟨3, 10, 1⟩ ⟨CircState.closed, 2, 0, 1⟩ 2
        (Except.error () : Except Unit Unit) =
      (ExecResult.err (), ⟨CircState.opened, 3, 0, 2⟩, true)
    ∧ execute ⟨3, 10, 1⟩ ⟨CircState.opened, 3, 0, 2⟩ 5
        (Except.error () : Except Unit Unit) =
      (ExecResult.circuitOpen 7, ⟨CircState.opened, 3, 0, 2⟩, false)
    ∧ execute ⟨3, 10, 1⟩ ⟨CircState.opened, 3, 0, 2⟩ 20
        (Except.ok () : Except Unit Unit) =
      (ExecResult.ok (), ⟨CircState.closed, 0, 1, 2⟩, true)
    ∧ execute ⟨3, 10, 1⟩ ⟨CircState.opened, 3, 0, 2⟩ 20
        (Except.error () : Except Unit Unit) =
      (ExecResult.err (), ⟨CircState.opened, 4, 0, 20⟩, true) := by
  have h := circuitBreaker_scenario 10 0 1 2 5 20 (by decide) (by decide)
  simpa using h

/-- Counterexample for C7 as stated: a successful half-open probe that
reaches `halfOpenTrialCount = 1` moves the breaker to Closed, but the
half-open success counter holds 1 afterwards — it is not reset to zero at
this transition. -/
theorem onSuccess_counters_cex :
    (onSuccess ⟨3, 10, 1⟩ ⟨CircState.halfOpen, 2, 0, 0⟩).state = CircState.closed
    ∧ (onSuccess ⟨3, 10, 1⟩ ⟨CircState.halfOpen, 2, 0, 0⟩).successes = 1
    ∧ ¬ ((onSuccess ⟨3, 10, 1⟩ ⟨CircState.halfOpen, 2, 0, 0⟩).successes = 0) := by
  decide

/-- Claim C7, amended: a success in HalfOpen increments the half-open success
counter and resets the consecutive-failure counter to zero; when the
incremented counter reaches `halfOpenRequests` the breaker transitions to
Closed, otherwise it stays HalfOpen. The success counter itself keeps its
incremented value at the transition (it is re-zeroed when the breaker next
enters HalfOpen). -/
theorem onSuccess_halfOpen_spec (o : CBOptions) (cb : CB)
    (h : cb.state = CircState.halfOpen) :
    (onSuccess o cb).failures = 0
    ∧ (onSuccess o cb).successes = cb.successes + 1
    ∧ (onSuccess o cb).state =
        (if o.halfOpenRequests ≤ cb.successes + 1 then CircState.closed
         else CircState.halfOpen) := by
  simp only [onSuccess, h, if_pos]
  split_ifs with hth
  · simp
  · simp

/-- Witness for C7 at `halfOpenRequests = 1` and a fresh half-open state. -/
theorem onSuccess_halfOpen_spec_witness :
    (CB.mk CircState.halfOpen 2 0 0).state = CircState.halfOpen
    ∧ (onSuccess ⟨3, 10, 1⟩ ⟨CircState.halfOpen, 2, 0, 0⟩).failures = 0
    ∧ (onSuccess ⟨3, 10, 1⟩ ⟨CircState.halfOpen, 2, 0, 0⟩).successes = 0 + 1 :=
  ⟨rfl,
   (onSuccess_halfOpen_spec ⟨3, 10, 1⟩ ⟨CircState.halfOpen, 2, 0, 0⟩ rfl).1,
   (onSuccess_halfOpen_spec ⟨3, 10, 1⟩ ⟨CircState.halfOpen, 2, 0, 0⟩ rfl).2.1⟩

-- ═════════════════════════════════════════════════════════════
-- Theorems: fuzzy matcher
-- ═════════════════════════════════════════════════════════════

/-- Claim C3: `fuzzyScore` returns 100 on equality, 80 on a strict prefix
match, 60 when every whitespace token of the needle occurs in the candidate
and no higher rule fired, 40 when the candidate contains the needle
contiguously and no higher rule fired, and otherwise
`matchingCharCount / len(needle) · 20`, which is 0 when no characters match;
with the spec's concrete values `fuzzyScore("react","react") = 100`,
`fuzzyScore("react","reactjs") = 80`, `fuzzyScore("native","react native") =
60`, `fuzzyScore("xyz","abc") = 0`. -/
theorem fuzzyScore_spec (n h : List Char) :
    (h = n → fuzzyScore n h = 100)
    ∧ (h ≠ n → n.isPrefixOf h = true → fuzzyScore n h = 80)
    ∧ (h ≠ n → n.isPrefixOf h = false →
        (splitWs n).all (fun w => containsSeq w h) = true → fuzzyScore n h = 60)
    ∧ (h ≠ n → n.isPrefixOf h = false →
        (splitWs n).all (fun w => containsSeq w h) = false →
        containsSeq n h = true → fuzzyScore n h = 40)
    ∧ (h ≠ n → n.isPrefixOf h = false →
        (splitWs n).all (fun w => containsSeq w h) = false →
        containsSeq n h = false →
        fuzzyScore n h =
          ((n.filter (fun c => h.contains c)).length : ℚ) / (n.length : ℚ) * 20)
    ∧ (h ≠ n → n.isPrefixOf h = false →
        (splitWs n).all (fun w => containsSeq w h) = false →
        containsSeq n h = false →
        n.filter (fun c => h.contains c) = [] → fuzzyScore n h = 0)
    ∧ fuzzyScore "react".toList "react".toList = 100
    ∧ fuzzyScore "react".toList "reactjs".toList = 80
    ∧ fuzzyScore "native".toList "react native".toList = 60
    ∧ fuzzyScore "xyz".toList "abc".toList = 0 := by
  refine ⟨?_, ?_, ?_, ?_, ?_, ?_, by decide, by decide, by decide, ?_⟩
  · intro he
    simp [fuzzyScore, he]
  · intro hne hp
    simp [fuzzyScore, hne, hp]
  · intro hne hp hw
    simp [fuzzyScore, hne, hp, hw]
  · intro hne hp hw hc
    simp [fuzzyScore, hne, hp, hw, hc]
  · intro hne hp hw hc
    simp [fuzzyScore, hne, hp, hw, hc]
  · intro hne hp hw hc hfil
    rw [fuzzyScore, if_neg hne, if_neg (by simp [hp]), if_neg (by simp [hw]),
      if_neg (by simp [hc]), hfil]
    simp
  · have hfil : ("xyz".toList.filter (fun c => "abc".toList.contains c)) = [] := by
      decide
    rw [fuzzyScore, if_neg (by decide), if_neg (by decide), if_neg (by decide),
      if_neg (by decide), hfil]
    norm_num

/-- Witness for C3: a strict-prefix candidate scores 80 through the second
rule. -/
theorem fuzzyScore_spec_witness :
    "reactive".toList ≠ "react".toList
    ∧ fuzzyScore "react".toList "reactive".toList = 80 :=
  ⟨by decide,
   (fuzzyScore_spec "react".toList "reactive".toList).2.1 (by decide) (by decide)⟩

-- ═════════════════════════════════════════════════════════════
-- Theorems: motion planner
-- ═════════════════════════════════════════════════════════════

/-- Claim C5: for every start, end, positive step count and every choice of
the random control-point parameters, the sampled path has exactly `steps + 1`
points, begins at the start point and ends at the end point — the ease-out
remap sends 0 to 0 and 1 to 1 and the cubic Bézier interpolates its
endpoints. -/
theorem motionPath_endpoints (s e : Pt) (steps : Nat) (cd c1 s1 c2 s2 : ℚ)
    (h : 0 < steps) :
    (motionPath s e steps cd c1 s1 c2 s2).length = steps + 1
    ∧ (motionPath s e steps cd c1 s1 c2 s2)[0]? = some s
    ∧ (motionPath s e steps cd c1 s1 c2 s2)[steps]? = some e := by
  obtain ⟨sx, sy⟩ := s
  obtain ⟨ex, ey⟩ := e
  refine ⟨?_, ?_, ?_⟩
  · rw [motionPath, List.length_map, List.length_range]
  · rw [motionPath, List.getElem?_map,
      List.getElem?_range (show (0:Nat) < steps + 1 by omega)]
    simp only [Option.map_some']
    congr 1
    simp only [Nat.cast_zero, zero_div, easeOut, bezierPoint, generateBezierPoints]
    simp only [Pt.mk.injEq]
    constructor <;> ring
  · rw [motionPath, List.getElem?_map,
      List.getElem?_range (show steps < steps + 1 by omega)]
    simp only [Option.map_some']
    congr 1
    have hs : ((steps : ℚ)) / ((steps : ℚ)) = 1 :=
      div_self (Nat.cast_ne_zero.mpr h.ne')
    rw [hs]
    simp only [easeOut, bezierPoint, generateBezierPoints]
    simp only [Pt.mk.injEq]
    constructor <;> ring

/-- Witness for C5 at the spec's example: start (0,0), end (100,100),
15 steps — 16 points, first (0,0), last (100,100) — for a sample choice of
control-point parameters. -/
theorem motionPath_endpoints_witness :
    0 < 15
    ∧ (motionPath ⟨0, 0⟩ ⟨100, 100⟩ 15 7 (mkRat 1 2) (mkRat 1 3) (mkRat 1 4)
        (mkRat 1 5)).length = 15 + 1
    ∧ (motionPath ⟨0, 0⟩ ⟨100, 100⟩ 15 7 (mkRat 1 2) (mkRat 1 3) (mkRat 1 4)
        (mkRat 1 5))[0]? = some ⟨0, 0⟩
    ∧ (motionPath ⟨0, 0⟩ ⟨100, 100⟩ 15 7 (mkRat 1 2) (mkRat 1 3) (mkRat 1 4)
        (mkRat 1 5))[15]? = some ⟨100, 100⟩ :=
  ⟨by decide,
   (motionPath_endpoints ⟨0, 0⟩ ⟨100, 100⟩ 15 7 (mkRat 1 2) (mkRat 1 3)
     (mkRat 1 4) (mkRat 1 5) (by decide)).1,
   (motionPath_endpoints ⟨0, 0⟩ ⟨100, 100⟩ 15 7 (mkRat 1 2) (mkRat 1 3)
     (mkRat 1 4) (mkRat 1 5) (by decide)).2.1,
   (motionPath_endpoints ⟨0, 0⟩ ⟨100, 100⟩ 15 7 (mkRat 1 2) (mkRat 1 3)
     (mkRat 1 4) (mkRat 1 5) (by decide)).2.2⟩

-- ═════════════════════════════════════════════════════════════
-- Theorems: typing engine
-- ═════════════════════════════════════════════════════════════

/-- `splitSpace` never returns the empty list of words. -/
theorem splitSpace_ne_nil (s : List Char) : splitSpace s ≠ [] := by
  induction s with
  | nil => simp [splitSpace]
  | cons c rest ih =>
    simp only [splitSpace]
    split_ifs
    · simp
    · cases hsp : splitSpace rest with
      | nil => simp
      | cons w ws => simp

/-- Splitting on spaces and re-joining with spaces is the identity
(`content.split(' ').join(' ') == content`). -/
theorem joinSpace_splitSpace (s : List Char) : joinSpace (splitSpace s) = s := by
  induction s with
  | nil => rfl
  | cons c rest ih =>
    by_cases hc : c = ' '
    · subst hc
      simp only [splitSpace, if_pos rfl]
      cases hsp : splitSpace rest with
      | nil => exact absurd hsp (splitSpace_ne_nil rest)
      | cons w ws =>
        rw [hsp] at ih
        simp [joinSpace, ih]
    · simp only [splitSpace, if_neg hc]
      cases hsp : splitSpace rest with
      | nil => exact absurd hsp (splitSpace_ne_nil rest)
      | cons w ws =>
        rw [hsp] at ih
        cases ws with
        | nil =>
          simp only [joinSpace] at ih ⊢
          rw [ih]
        | cons w' ws' =>
          simp only [joinSpace] at ih ⊢
          rw [← ih]
          simp

/-- Replaying the keystrokes of one word through the editor appends exactly
that word: each typo keystroke is cancelled by the Backspace that follows
it. -/
theorem applyKeys_typeChars (t : Nat → Bool) (tc : Nat → Char) :
    ∀ (w : List Char) (pos : Nat) (ks : List Key) (acc : List Char),
      applyKeys (typeChars t tc w pos ++ ks) acc = applyKeys ks (acc ++ w) := by
  intro w
  induction w with
  | nil =>
    intro pos ks acc
    simp [typeChars]
  | cons c w' ih =>
    intro pos ks acc
    by_cases ht : (t pos && !w'.isEmpty) = true
    · simp only [typeChars, ht, if_pos, List.cons_append, List.append_assoc,
        List.nil_append, List.append_eq, applyKeys]
      rw [List.dropLast_concat, ih]
      simp
    · simp only [typeChars, ht, if_neg, List.cons_append, List.nil_append,
        List.append_eq, applyKeys]
      rw [ih]
      simp

/-- Replaying all words appends the joined text. -/
theorem applyKeys_typeWords (t : Nat → Bool) (tc : Nat → Char) :
    ∀ (ws : List (List Char)) (pos : Nat) (ks : List Key) (acc : List Char),
      applyKeys (typeWords t tc ws pos ++ ks) acc =
        applyKeys ks (acc ++ joinSpace ws) := by
  intro ws
  induction ws with
  | nil =>
    intro pos ks acc
    simp [typeWords, joinSpace]
  | cons w ws' ih =>
    intro pos ks acc
    cases ws' with
    | nil =>
      simp only [typeWords, joinSpace]
      rw [applyKeys_typeChars]
    | cons w' ws'' =>
      simp only [typeWords, joinSpace, List.append_assoc, List.cons_append]
      rw [applyKeys_typeChars]
      simp only [applyKeys]
      rw [ih]
      simp

/-- The word keystrokes are well formed: typo keystrokes come paired with an
immediately following Backspace. -/
theorem typoOk_typeChars (t : Nat → Bool) (tc : Nat → Char) :
    ∀ (w : List Char) (pos : Nat) (ks : List Key),
      typoOk (typeChars t tc w pos ++ ks) = typoOk ks := by
  intro w
  induction w with
  | nil =>
    intro pos ks
    simp [typeChars]
  | cons c w' ih =>
    intro pos ks
    by_cases ht : (t pos && !w'.isEmpty) = true
    · simp only [typeChars, ht, if_pos, List.cons_append, List.nil_append,
        typoOk]
      exact ih (pos + 1) ks
    · simp only [typeChars, ht, if_neg, List.cons_append, List.nil_append,
        typoOk]
      exact ih (pos + 1) ks

/-- Well-formedness extends to the full word loop. -/
theorem typoOk_typeWords (t : Nat → Bool) (tc : Nat → Char) :
    ∀ (ws : List (List Char)) (pos : Nat) (ks : List Key),
      typoOk (typeWords t tc ws pos ++ ks) = typoOk ks := by
  intro ws
  induction ws with
  | nil =>
    intro pos ks
    simp [typeWords]
  | cons w ws' ih =>
    intro pos ks
    cases ws' with
    | nil =>
      simp only [typeWords]
      rw [typoOk_typeChars]
    | cons w' ws'' =>
      simp only [typeWords, List.append_assoc, List.cons_append]
      rw [typoOk_typeChars]
      simp only [typoOk]
      exact ih (pos + w.length) ks

/-- The keystrokes for a word do not depend on the typo draw at the word's
last character: a typo can fire only before a character that is not the last
of its word. -/
theorem typeChars_congr (t t' : Nat → Bool) (tc : Nat → Char) :
    ∀ (w : List Char) (pos : Nat),
      (∀ i, i + 1 < w.length → t (pos + i) = t' (pos + i)) →
      typeChars t tc w pos = typeChars t' tc w pos := by
  intro w
  induction w with
  | nil => intro pos _; rfl
  | cons c w' ih =>
    intro pos hag
    cases w' with
    | nil => simp [typeChars]
    | cons d w'' =>
      have h0 : t pos = t' pos := by
        have := hag 0 (by simp)
        simpa using this
      have hrec : typeChars t tc (d :: w'') (pos + 1) =
          typeChars t' tc (d :: w'') (pos + 1) := by
        apply ih
        intro i hi
        have harr : pos + 1 + i = pos + (i + 1) := by omega
        rw [harr]
        apply hag
        simp only [List.length_cons] at hi ⊢
        omega
      conv_lhs => rw [typeChars]
      conv_rhs => rw [typeChars]
      rw [h0, hrec]

/-- Claim C4: for every input string and every outcome of the typo draws, the
keystroke sequence emitted by `humanType` replays through the editor to
exactly the original string (each typo keystroke being cancelled by its
Backspace); every typo keystroke is immediately followed by a Backspace (and
Backspaces occur only there); and the emitted keystrokes do not depend on the
typo draw at the last character of any word — typos are only inserted before
a character that is not the last of its word. -/
theorem humanType_spec (t t' : Nat → Bool) (tc : Nat → Char) (s : List Char)
    (hs : s ≠ []) :
    applyKeys (humanTypeKeys t tc s) [] = s
    ∧ typoOk (humanTypeKeys t tc s) = true
    ∧ (∀ (w : List Char) (pos : Nat),
        (∀ i, i + 1 < w.length → t (pos + i) = t' (pos + i)) →
        typeChars t tc w pos = typeChars t' tc w pos) := by
  refine ⟨?_, ?_, typeChars_congr t t' tc⟩
  · have h := applyKeys_typeWords t tc (splitSpace s) 0 [] []
    simp only [List.append_nil, List.nil_append] at h
    rw [humanTypeKeys, h, applyKeys, joinSpace_splitSpace]
  · have h := typoOk_typeWords t tc (splitSpace s) 0 []
    simp only [List.append_nil] at h
    rw [humanTypeKeys, h, typoOk]

/-- Witness for C4 on the string "hi there" with a concrete typo-draw oracle:
the replayed keystrokes reconstruct the string and are well formed. -/
theorem humanType_spec_witness :
    applyKeys
      (humanTypeKeys (fun n => n % 2 == 0) (fun _ => 'q') "hi there".toList)
      [] = "hi there".toList
    ∧ typoOk
        (humanTypeKeys (fun n => n % 2 == 0) (fun _ => 'q') "hi there".toList)
      = true :=
  ⟨(humanType_spec (fun n => n % 2 == 0) (fun n => n % 2 == 0) (fun _ => 'q')
      "hi there".toList (by decide)).1,
   (humanType_spec (fun n => n % 2 == 0) (fun n => n % 2 == 0) (fun _ => 'q')
      "hi there".toList (by decide)).2.1⟩

-- ═════════════════════════════════════════════════════════════
-- Theorems: delays (per-character typing delay)
-- ═════════════════════════════════════════════════════════════

/-- Counterexample for C6 as stated: with the configured typing range
`[45, 140]` (HumanConfig.typing) and Box–Muller value 5, the per-character
delay is `92.5 + 5·23.75 = 211.25`, strictly above the configured maximum —
the delay is not clamped to `[minDelay, maxDelay]`. -/
theorem charDelay_cex : (140:ℚ) < charDelay 45 140 5 := by
  norm_num [charDelay, gaussianOf]

/-- Claim C6, amended: the delay that follows an emitted correct character is
`max(minDelay, g)` where `g` is sampled from the gaussian with mean
`(minDelay+maxDelay)/2` and stddev `(maxDelay-minDelay)/4`; it is clamped
below at `minDelay` but not above — whenever the sampled value exceeds
`maxDelay`, so does the delay (it stays within the range only when the
sample itself does). -/
theorem charDelay_spec (minD maxD z : ℚ) :
    charDelay minD maxD z =
      max minD (gaussianOf ((minD + maxD) / 2) ((maxD - minD) / 4) z)
    ∧ minD ≤ charDelay minD maxD z
    ∧ (maxD < gaussianOf ((minD + maxD) / 2) ((maxD - minD) / 4) z →
        maxD < charDelay minD maxD z)
    ∧ (gaussianOf ((minD + maxD) / 2) ((maxD - minD) / 4) z ≤ maxD →
        minD ≤ maxD → charDelay minD maxD z ≤ maxD) := by
  refine ⟨rfl, le_max_left _ _, ?_, ?_⟩
  · intro hgt
    exact lt_max_iff.mpr (Or.inr hgt)
  · intro hle hrange
    exact max_le hrange hle

/-- Witness for C6 at the configured range and a large sample. -/
theorem charDelay_spec_witness :
    (140:ℚ) < gaussianOf ((45 + 140) / 2) ((140 - 45) / 4) 5
    ∧ (140:ℚ) < charDelay 45 140 5 :=
  ⟨by norm_num [gaussianOf],
   (charDelay_spec 45 140 5).2.2.1 (by norm_num [gaussianOf])⟩

-- ═════════════════════════════════════════════════════════════
-- Theorems: gaussianRandom and the u1 = 0 edge case
-- ═════════════════════════════════════════════════════════════

/-- Multiplying a non-finite value by a finite one never yields a finite
value. -/
theorem jsMul_num_nonfinite (x : JsNum) (s : ℚ) (hx : x.isFinite = false) :
    (jsMul x (JsNum.num s)).isFinite = false := by
  cases x with
  | num q => simp [JsNum.isFinite] at hx
  | posInf =>
    simp only [jsMul]
    split_ifs <;> rfl
  | negInf =>
    simp only [jsMul]
    split_ifs <;> rfl
  | nan => rfl

/-- Adding a finite value to a non-finite one never yields a finite value. -/
theorem jsAdd_num_nonfinite (m : ℚ) (x : JsNum) (hx : x.isFinite = false) :
    (jsAdd (JsNum.num m) x).isFinite = false := by
  cases x with
  | num q => simp [JsNum.isFinite] at hx
  | posInf => rfl
  | negInf => rfl
  | nan => rfl

/-- Claim C8's failing input, evaluated on the code: `gaussianRandom` applies
`Math.log` to `u1` with no guard, so when the `Math.random()` draw `u1` is 0
the code computes `sqrt(-2 · log 0) = sqrt(-2 · -Infinity) = Infinity`, and
for any finite values of `Math.cos(2π·u2)`, `mean` and `stdDev` the returned
value is non-finite (`±Infinity` or `NaN`) — there is no guard making the
result a finite number. -/
theorem gaussianRandom_u1_zero (logF sqrtF cosF : JsNum → JsNum)
    (piV u2 : JsNum) (m s c : ℚ)
    (hlog : logF (JsNum.num 0) = JsNum.negInf)
    (hsqrt : sqrtF JsNum.posInf = JsNum.posInf)
    (hcos : cosF (jsMul (jsMul (JsNum.num 2) piV) u2) = JsNum.num c) :
    (gaussianRandom logF sqrtF cosF piV (JsNum.num m) (JsNum.num s)
      (JsNum.num 0) u2).isFinite = false := by
  unfold gaussianRandom
  rw [hlog, hcos]
  have h1 : jsMul (JsNum.num (-2)) JsNum.negInf = JsNum.posInf := by
    simp only [jsMul]
    rw [if_neg (by norm_num), if_pos (by norm_num)]
  rw [h1, hsqrt]
  apply jsAdd_num_nonfinite
  apply jsMul_num_nonfinite
  simp only [jsMul]
  split_ifs <;> rfl

/-- Witness for C8's evaluation: sample interpretations of the library
functions that agree with JS at the relevant points produce a non-finite
result for `u1 = 0` at the configured mean 92.5 ≈ 92 and stddev ≈ 23. -/
theorem gaussianRandom_u1_zero_witness :
    logModel (JsNum.num 0) = JsNum.negInf
    ∧ (gaussianRandom logModel sqrtModel cosModel (JsNum.num 3) (JsNum.num 92)
        (JsNum.num 23) (JsNum.num 0) (JsNum.num 1)).isFinite = false :=
  ⟨rfl,
   gaussianRandom_u1_zero logModel sqrtModel cosModel (JsNum.num 3)
     (JsNum.num 1) 92 23 1 rfl rfl rfl⟩

-- ═════════════════════════════════════════════════════════════
-- Theorems: input-method classifier
-- ═════════════════════════════════════════════════════════════

/-- Counterexample for C9 as stated: a 100-character text that matches no
copied-content pattern has length at most 200, yet `shouldPaste` returns
`true` on the run whose draw is 0.8 — it is not `false` on every run for
non-matching texts of length ≤ 200 (lengths 50–200 coin-flip). -/
theorem shouldPaste_cex :
    (List.replicate 100 'a').length ≤ 200
    ∧ matchesPastePattern (List.replicate 100 'a') = false
    ∧ shouldPaste (List.replicate 100 'a') (mkRat 4 5) = true := by
  refine ⟨by decide, by decide, by decide⟩

/-- Claim C9, amended: `shouldPaste` returns `true` for every text matching a
copied-content pattern; for non-matching text it returns `false` on every run
only when the length is below 50; for non-matching text of length 50–200 it
returns `true` exactly when the draw is at least 0.7 (so it can return `true`
depending on the draw), and for length above 200 exactly when the draw is at
least 0.25. -/
theorem shouldPaste_spec (cs : List Char) (rand : ℚ) :
    (matchesPastePattern cs = true → shouldPaste cs rand = true)
    ∧ (matchesPastePattern cs = false → cs.length < 50 →
        shouldPaste cs rand = false)
    ∧ (matchesPastePattern cs = false → 50 ≤ cs.length → cs.length ≤ 200 →
        (shouldPaste cs rand = true ↔ mkRat 7 10 ≤ rand))
    ∧ (matchesPastePattern cs = false → 200 < cs.length →
        (shouldPaste cs rand = true ↔ mkRat 1 4 ≤ rand)) := by
  refine ⟨?_, ?_, ?_, ?_⟩
  · intro hm
    simp [shouldPaste, getInputBehavior, hm]
  · intro hm h50
    simp [shouldPaste, getInputBehavior, hm, h50]
  · intro hm h50 h200
    have h50' : ¬ (cs.length < 50) := by omega
    by_cases hr : rand < mkRat 7 10
    · apply iff_of_false
      · simp [shouldPaste, getInputBehavior, hm, h50', h200, hr]
      · exact not_le.mpr hr
    · apply iff_of_true
      · simp [shouldPaste, getInputBehavior, hm, h50', h200, hr]
      · exact not_lt.mp hr
  · intro hm h200
    have h50' : ¬ (cs.length < 50) := by omega
    have h200' : ¬ (cs.length ≤ 200) := by omega
    by_cases hr : rand < mkRat 1 4
    · apply iff_of_false
      · simp [shouldPaste, getInputBehavior, hm, h50', h200', hr]
      · exact not_le.mpr hr
    · apply iff_of_true
      · simp only [shouldPaste, getInputBehavior, hm, Bool.false_eq_true,
          if_false, h50', h200', hr, if_neg]
        split_ifs <;> rfl
      · exact not_lt.mp hr

/-- Witness for C9: a GitHub URL always pastes, through the pattern rule. -/
theorem shouldPaste_spec_witness :
    matchesPastePattern "https://github.com/user/repo".toList = true
    ∧ shouldPaste "https://github.com/user/repo".toList (mkRat 1 2) = true :=
  ⟨by decide,
   (shouldPaste_spec "https://github.com/user/repo".toList (mkRat 1 2)).1
     (by decide)⟩

end Tsenta
